import Mathlib

/-!
Verification of the aiodown download library (AmanoTeam/aiodown).

Shallow embedding of `src/aiodown/types/download.py` (the `Download` class)
and `src/aiodown/client.py` (the `Client` class).  Statuses are the string
constants used by the source.  The asynchronous worker `Download._request`
is embedded as a pure function driven by an explicit environment: a list of
`Session`s, one per HTTP request the worker opens, each describing what the
transport does on that connection.  Filesystem effects (directory creation,
the `FileExistsError` pre-check) and real time are outside the model; the
time-dependent accessors take the elapsed seconds as an argument.
-/

namespace Aiodown

/-- State of one `Download` object: the fields of `Download.__init__` that
the modelled operations read or write (`_status`, `_retries`, `_attempts`,
`_bytes_total`, `_bytes_downloaded`).  The url/path/name strings and the
wall-clock `_start` field do not influence the modelled control flow. -/
structure Download where
  status : String
  retries : Nat
  attempts : Nat
  bytesTotal : Nat
  bytesDownloaded : Nat
deriving Repr, DecidableEq

/-- `Download.is_finished`: status is one of failed/finished/ready/stopped. -/
def is_finished (d : Download) : Bool :=
  d.status = "failed" ∨ d.status = "finished" ∨ d.status = "ready" ∨ d.status = "stopped"

/-- Errors raised by the source, by Python class and site.
`alreadyStarted` and `alreadyStopped` are the two `RuntimeError`s of
`Download.start`/`Download.stop`; `progressError`/`finishedError`/
`pausedError` are `aiodown.errors.ProgressError`/`FinishedError`/
`PausedError`; the remaining constructors are the `RuntimeError`/
`KeyError`/`TypeError` sites of `Client`. -/
inductive Err where
  | alreadyStarted
  | alreadyStopped
  | progressError
  | finishedError
  | pausedError
  | registryRunning
  | registryNotRunning
  | keyError
  | typeError
  | transferInProgress
deriving Repr, DecidableEq

/-- One HTTP session opened by `Download._request`:
* `badHeader` — the connection fails in the transient class caught on
  lines 121-128 of download.py before any chunk is written (non-200
  `AssertionError`, connect error, or missing `Content-Length` `KeyError`);
* `stream len chunks thenTransient` — the response declares
  `Content-Length = len` and yields `chunks` (each chunk a list of byte
  values); if `thenTransient` is true the connection then dies with a
  transient-class error instead of ending normally;
* `fatal` — an exception outside the transient class is raised (the bare
  `except:` on lines 141-145). -/
inductive Session where
  | badHeader : Session
  | stream (len : Nat) (chunks : List (List Nat)) (thenTransient : Bool) : Session
  | fatal : Session
deriving Repr, DecidableEq

/-- The chunk loop of `Download._request` (lines 94-112).  State: the
download object, the bytes written to the output file so far, and the
response's cumulative `num_bytes_downloaded` counter.  Per chunk: break if
status is "stopped"; (the cooperative pause wait-loop cannot fire in this
single-writer model, since only the worker itself changes the status while
it runs); if status is "reconnecting", skip chunks whose cumulative count
is below the recorded `_bytes_downloaded`, otherwise reset `_attempts` to 0
and set status "downloading"; finally, if the cumulative count is positive,
append the chunk and record the cumulative count in `_bytes_downloaded`. -/
def chunkLoop : Download → List Nat → Nat → List (List Nat) → Download × List Nat × Nat
  | d, file, cum, [] => (d, file, cum)
  | d, file, cum, ch :: rest =>
    if d.status = "stopped" then (d, file, cum)
    else
      let cum2 := cum + ch.length
      if d.status = "reconnecting" then
        if cum2 < d.bytesDownloaded then
          chunkLoop d file cum2 rest
        else
          let d2 : Download := { d with attempts := 0, status := "downloading" }
          if 0 < cum2 then
            chunkLoop { d2 with bytesDownloaded := cum2 } (file ++ ch) cum2 rest
          else
            chunkLoop d2 file cum2 rest
      else
        if 0 < cum2 then
          chunkLoop { d with bytesDownloaded := cum2 } (file ++ ch) cum2 rest
        else
          chunkLoop d file cum2 rest

/-- `Download._request` (lines 66-145), driven by one `Session` per opened
connection.  Result: final download state, final on-disk file contents, and
whether the worker notified its client via `Client.check_is_running` (true
on the normal-completion path of lines 114-118 and on the bare-`except:`
path of lines 141-145; the retry-exhaustion path of lines 136-140 does not
notify).  The guard on line 73 returns without doing anything unless the
status is "reconnecting" or "started"; a fresh ("started") entry sets
status "downloading" (line 84) before the request is attempted.  A session
that reaches the chunk stage opens the path with
`async_files.FileIO(path, "wb")` (line 93), truncating the file, so its
chunk loop starts from empty contents and whatever it writes *replaces*
the previous on-disk contents; a `badHeader` failure (and the modelled
`fatal` one, an exception during connection setup) happens before line 93,
leaving the file untouched.  On a transient-class error the handler of
lines 121-140 sets status "reconnecting" and, if `_attempts < _retries`,
increments `_attempts` and re-enters `_request` (consuming the next
session); otherwise it sets status "failed" without notifying the
client. -/
def request : Download → List Nat → List Session → Download × List Nat × Bool
  | d, file, [] => (d, file, false)
  | d, file, s :: rest =>
    if d.status = "reconnecting" ∨ d.status = "started" then
      let d1 := if d.status = "reconnecting" then d else { d with status := "downloading" }
      match s with
      | .badHeader =>
        let dr : Download := { d1 with status := "reconnecting" }
        if dr.attempts < dr.retries then
          request { dr with attempts := dr.attempts + 1 } file rest
        else
          ({ dr with status := "failed" }, file, false)
      | .stream len chunks thenTransient =>
        let d2 : Download := { d1 with bytesTotal := len }
        let r := chunkLoop d2 [] 0 chunks
        if thenTransient then
          let dr : Download := { r.1 with status := "reconnecting" }
          if dr.attempts < dr.retries then
            request { dr with attempts := dr.attempts + 1 } r.2.1 rest
          else
            ({ dr with status := "failed" }, r.2.1, false)
        else
          if r.1.status = "stopped" then (r.1, r.2.1, false)
          else ({ r.1 with status := "finished" }, r.2.1, true)
      | .fatal =>
        ({ d1 with status := "failed" }, file, true)
    else (d, file, false)

/-- A download as `Client.add` constructs it: status "ready", no bytes. -/
def freshDownload (retries : Nat) : Download :=
  { status := "ready", retries := retries, attempts := 0
    bytesTotal := 0, bytesDownloaded := 0 }

/-- The state of a download the moment `Download.start` has succeeded. -/
def startedDownload (retries : Nat) : Download :=
  { freshDownload retries with status := "started" }

/-- `Download.start` (download.py lines 147-166), status logic only: raise
`RuntimeError("Download is already started")` if status is "started"; raise
`ProgressError` if `is_finished()` is false; otherwise set status
"started".  The wall-clock `_start` stamp and the executor launch are not
part of the state model.  On an error the object is returned unchanged
(Python raises before any mutation). -/
def startDL (d : Download) : Download × Option Err :=
  if d.status = "started" then (d, some .alreadyStarted)
  else if ¬ is_finished d then (d, some .progressError)
  else ({ d with status := "started" }, none)

/-- Status logic of `Download.stop` (download.py lines 168-187): raise
`FinishedError` if `is_finished()`; raise `RuntimeError` if status is
"stopped" (unreachable, since "stopped" is in the finished set); otherwise
set status "stopped".  The task cancellation and the
`Client.check_is_running` notification are modelled at the client level. -/
def stopOne (d : Download) : Download × Option Err :=
  if is_finished d then (d, some .finishedError)
  else if d.status = "stopped" then (d, some .alreadyStopped)
  else ({ d with status := "stopped" }, none)

/-- `Download.pause` (download.py lines 189-204). -/
def pauseDL (d : Download) : Download × Option Err :=
  if is_finished d then (d, some .finishedError)
  else if d.status = "paused" then (d, some .pausedError)
  else ({ d with status := "paused" }, none)

/-- `Download.resume` (download.py lines 206-221). -/
def resumeDL (d : Download) : Download × Option Err :=
  if is_finished d then (d, some .finishedError)
  else if ¬ d.status = "paused" then (d, some .progressError)
  else ({ d with status := "downloading" }, none)

/-- State of a `Client`: the `_running` flag and the `_downloads` dict,
modelled as an insertion-ordered association list (Python dicts preserve
insertion order).  The `_workers` count has no modelled effect. -/
structure Client where
  running : Bool
  downloads : List (Nat × Download)
deriving Repr, DecidableEq

/-- `Client()` — created not running, with an empty download dict. -/
def freshClient : Client := { running := false, downloads := [] }

/-- `self._downloads[dl_id]` read access: first (only) entry with the key. -/
def lookupDL (ds : List (Nat × Download)) (i : Nat) : Option Download :=
  (ds.find? (fun p => p.1 = i)).map Prod.snd

/-- `self._downloads[dl_id] = dl`: replace the entry in place if the key
is present (keeping dict order), else append at the end — Python dict
assignment. -/
def dictSet : List (Nat × Download) → Nat → Download → List (Nat × Download)
  | [], i, v => [(i, v)]
  | p :: tl, i, v => if p.1 = i then (i, v) :: tl else p :: dictSet tl i v

/-- `Client.check_is_running` (client.py lines 145-154): if every download
in the dict `is_finished()`, clear `_running`; otherwise return early,
leaving the client unchanged.  (On an empty dict the loop body never runs,
so the flag is cleared.) -/
def check_is_running (c : Client) : Client :=
  if c.downloads.all (fun p => is_finished p.2) then { c with running := false } else c

/-- `Client.add` (client.py lines 47-80): raise `RuntimeError` if
`is_running()`; else allocate `dl_id = len(self._downloads.keys())`, build
a fresh `Download` (status "ready"), store it at `dl_id`, and return the
allocated id (the source returns the `Download`, whose `_id` field it has
just set to `dl_id`, overwriting the random id from `Download.__init__`). -/
def clientAdd (c : Client) (retries : Nat) : Client × Except Err Nat :=
  if c.running then (c, .error .registryRunning)
  else
    let dlId := c.downloads.length
    ({ c with downloads := dictSet c.downloads dlId (freshDownload retries) }, .ok dlId)

/-- Argument of `Client.rem`: `True`, `False`, or an integer id. -/
inductive RemArg where
  | tru : RemArg
  | fls : RemArg
  | one (i : Nat) : RemArg
deriving Repr, DecidableEq

/-- `Client.rem` (client.py lines 82-115): `rem(True)` clears the whole
dict unless running (`RuntimeError`); `rem(False)` is a `TypeError`;
`rem(id)` deletes the entry if present and `is_finished()`, raises
`RuntimeError` if present but unfinished, `KeyError` if absent.  Note the
single-id path never consults `is_running()`. -/
def clientRem (c : Client) (a : RemArg) : Client × Option Err :=
  match a with
  | .tru =>
    if c.running then (c, some .registryRunning)
    else ({ c with downloads := [] }, none)
  | .fls => (c, some .typeError)
  | .one i =>
    match lookupDL c.downloads i with
    | some d =>
      if is_finished d then
        ({ c with downloads := c.downloads.filter (fun q => ¬ q.1 = i) }, none)
      else (c, some .transferInProgress)
    | none => (c, some .keyError)

/-- The loop of `Client.start` (client.py lines 126-129): call
`Download.start` on each stored download, in dict order, mutating the dict
entry; an exception aborts the loop (the flag is then never set).  After
the loop, `self._running = True`. -/
def startFold (c : Client) : List Nat → Client × Option Err
  | [] => ({ c with running := true }, none)
  | i :: rest =>
    match lookupDL c.downloads i with
    | none => startFold c rest
    | some d =>
      match startDL d with
      | (_, some e) => (c, some e)
      | (d2, none) => startFold { c with downloads := dictSet c.downloads i d2 } rest

/-- `Client.start` (client.py lines 117-129): raise `RuntimeError` if
`is_running()`; else start every stored download and set the flag. -/
def clientStart (c : Client) : Client × Option Err :=
  if c.running then (c, some .registryRunning)
  else startFold c (c.downloads.map Prod.fst)

/-- The loop of `Client.stop` (client.py lines 140-143): call
`Download.stop` on each stored download in dict order.  Each successful
`Download.stop` sets that download's status to "stopped" and then calls
`self._client.check_is_running()` (download.py lines 181-185); an
exception from `Download.stop` aborts the loop.  After the loop,
`self._running = False`. -/
def stopFold (c : Client) : List Nat → Client × Option Err
  | [] => ({ c with running := false }, none)
  | i :: rest =>
    match lookupDL c.downloads i with
    | none => stopFold c rest
    | some d =>
      match stopOne d with
      | (_, some e) => (c, some e)
      | (d2, none) =>
        stopFold (check_is_running { c with downloads := dictSet c.downloads i d2 }) rest

/-- `Client.stop` (client.py lines 131-143): raise `RuntimeError` if not
`is_running()`; else stop every stored download and clear the flag. -/
def clientStop (c : Client) : Client × Option Err :=
  if ¬ c.running then (c, some .registryNotRunning)
  else stopFold c (c.downloads.map Prod.fst)

/-- `n` successive `Client.add` calls, each on the client state the
previous call produced (the allocation logic itself is `clientAdd`). -/
def addManyP (c : Client) (retries : Nat) : Nat → Client
  | 0 => c
  | n + 1 => (clientAdd (addManyP c retries n) retries).1

/-- Round-half-even to an integer, the rounding of Python's string
formatting `f"{x:.1f}"` applied to `x * 10` (ties go to the even
neighbour).  Modelled in exact rational arithmetic. -/
def roundHalfEven (x : ℚ) : ℤ :=
  if x - Int.floor x < 1 / 2 then Int.floor x
  else if 1 / 2 < x - Int.floor x then Int.floor x + 1
  else if 2 ∣ Int.floor x then Int.floor x else Int.floor x + 1

/-- `Download.get_progress` (download.py lines 313-326):
`float(f"{downloaded / total * 100:.1f}")`, with a `ZeroDivisionError`
handler returning 0 when the total is 0.  Exact-rational model of the
division and of the one-decimal rounding. -/
def get_progress (d : Download) : ℚ :=
  if d.bytesTotal = 0 then 0
  else (roundHalfEven ((d.bytesDownloaded : ℚ) / (d.bytesTotal : ℚ) * 100 * 10) : ℚ) / 10

/-- `Download.get_speed` (download.py lines 441-486):
`size_downloaded / ((now - self._start).seconds + 1)`.  The elapsed
wall-clock time enters as its whole-second count (`timedelta.seconds`). -/
def get_speed (d : Download) (elapsedSeconds : Nat) : ℚ :=
  (d.bytesDownloaded : ℚ) / ((elapsedSeconds : ℚ) + 1)

/-- A Python value as it appears in the comparison on download.py line
549: either a string, or a bound-method object (identified by the method
name). -/
inductive PyVal where
  | str (s : String) : PyVal
  | method (name : String) : PyVal
deriving Repr, DecidableEq

/-- Python `==` on these values: strings compare by contents; a
bound-method object never equals a string (and two bound methods of the
same name on the same object are equal). -/
def pyEq : PyVal → PyVal → Bool
  | .str a, .str b => a = b
  | .method a, .method b => a = b
  | _, _ => false

/-- `Download.is_success` (download.py lines 536-549): raise
`ProgressError` unless `is_finished()`; then return
`self.get_status == "finished"` — the source compares the bound method
`self.get_status` itself (not its call result) against the string. -/
def is_success (d : Download) : Except Err Bool :=
  if ¬ is_finished d then .error .progressError
  else .ok (pyEq (.method "get_status") (.str "finished"))

/-- The chunks of a reconnect stream that survive the skip test on
download.py lines 103-105: drop leading chunks while the cumulative byte
count stays below `r`; the first chunk that reaches `r` (and everything
after it) is kept. -/
def resumeSuffix (r : Nat) : Nat → List (List Nat) → List (List Nat)
  | _, [] => []
  | cum, ch :: rest =>
    if cum + ch.length < r then resumeSuffix r (cum + ch.length) rest
    else ch :: rest

/-- Helper for C1: a worker whose every connection dies in the transient
class before the headers arrive behaves the same on each entry, so the
whole run is `request` applied to a list of `badHeader` sessions. -/
theorem request_badHeader_exhaust (m : Nat) :
    ∀ d : Download, ∀ file : List Nat,
      (d.status = "started" ∨ d.status = "reconnecting") →
      d.attempts + m = d.retries + 1 →
      d.attempts ≤ d.retries →
      request d file (List.replicate m .badHeader) =
        ({ d with status := "failed", attempts := d.retries }, file, false) := by
  induction m with
  | zero =>
    intro d file _ hsum hle
    omega
  | succ k ih =>
    intro d file hst hsum hle
    rcases d with ⟨st, R, a, bt, bd⟩
    simp only at hsum hle hst
    rw [List.replicate_succ]
    rcases Nat.lt_or_ge a R with hlt | hge
    · -- attempts < retries: one more reconnect attempt is made
      have hstep :
          request ⟨st, R, a, bt, bd⟩ file
              (Session.badHeader :: List.replicate k Session.badHeader) =
            request ⟨"reconnecting", R, a + 1, bt, bd⟩ file
              (List.replicate k Session.badHeader) := by
        rcases hst with hS | hR <;> subst_vars <;> simp [request, hlt]
      rw [hstep]
      exact ih ⟨"reconnecting", R, a + 1, bt, bd⟩ file (Or.inr rfl)
        (show a + 1 + k = R + 1 by omega) (show a + 1 ≤ R by omega)
    · -- attempts = retries: the limit is reached, status becomes "failed"
      have heq : a = R := Nat.le_antisymm hle hge
      subst heq
      rcases hst with hS | hR <;> subst_vars <;> simp [request]

/-- Claim C1: for every configured retry limit N ≥ 0, a download whose
worker suffers N+1 consecutive transient transport failures ends with
status "failed" and attempt counter equal to N: each transient error sets
status "reconnecting", and the handler increments `_attempts` and re-enters
`_request` while `_attempts < _retries`, otherwise sets status "failed". -/
theorem c1_retry_exhaustion (N : Nat) :
    (request (startedDownload N) [] (List.replicate (N + 1) .badHeader)).1.status = "failed" ∧
    (request (startedDownload N) [] (List.replicate (N + 1) .badHeader)).1.attempts = N := by
  have h := request_badHeader_exhaust (N + 1) (startedDownload N) []
    (Or.inl rfl) (by simp [startedDownload, freshDownload]) (by simp [startedDownload, freshDownload])
  rw [h]
  exact ⟨rfl, rfl⟩

theorem lookupDL_dictSet_same (ds : List (Nat × Download)) (i : Nat) (v : Download) :
    lookupDL (dictSet ds i v) i = some v := by
  induction ds with
  | nil => simp [dictSet, lookupDL, List.find?]
  | cons p tl ih =>
    by_cases h : p.1 = i
    · simp [dictSet, lookupDL, h, List.find?]
    · simp only [dictSet, if_neg h]
      simpa [lookupDL, List.find?, h] using ih

theorem lookupDL_dictSet_ne (ds : List (Nat × Download)) (i j : Nat) (v : Download)
    (hij : j ≠ i) : lookupDL (dictSet ds i v) j = lookupDL ds j := by
  have hij2 : ¬ i = j := fun h => hij h.symm
  induction ds with
  | nil => simp [dictSet, lookupDL, List.find?, hij2]
  | cons p tl ih =>
    by_cases h : p.1 = i
    · have hpj : ¬ p.1 = j := by rw [h]; exact hij2
      simp [dictSet, lookupDL, h, hpj, List.find?, hij2]
    · by_cases hj : p.1 = j
      · simp [dictSet, lookupDL, h, hj, List.find?, hij]
      · simp only [dictSet, if_neg h]
        simpa [lookupDL, List.find?, hj] using ih

theorem keys_dictSet (ds : List (Nat × Download)) (i : Nat) (v : Download) (d : Download)
    (hmem : lookupDL ds i = some d) :
    (dictSet ds i v).map Prod.fst = ds.map Prod.fst := by
  induction ds with
  | nil => simp [lookupDL] at hmem
  | cons p tl ih =>
    by_cases h : p.1 = i
    · simp [dictSet, h]
    · have : lookupDL tl i = some d := by
        simpa [lookupDL, List.find?, h] using hmem
      simp [dictSet, h, ih this]

theorem is_finished_false_ne_stopped (d : Download) (h : is_finished d = false) :
    ¬ d.status = "stopped" := by
  intro hs
  simp [is_finished, hs] at h

theorem is_finished_true_ne_started (d : Download) (h : is_finished d = true) :
    ¬ d.status = "started" := by
  intro hs
  simp [is_finished, hs] at h

/-- Claim C5 counterexample: calling `start()` on a download whose status
is "downloading" raises `ProgressError` (the spec's `InProgress`), not the
`AlreadyStarted` `RuntimeError` the claim asserts for that status. -/
theorem c5_counterexample :
    startDL ⟨"downloading", 3, 0, 1000, 10⟩ =
      (⟨"downloading", 3, 0, 1000, 10⟩, some Err.progressError) ∧
    Err.progressError ≠ Err.alreadyStarted := by
  constructor
  · rfl
  · decide

/-- Claim C5 as amended: `start()` fails with the `AlreadyStarted`
`RuntimeError` exactly when the status is "started"; for every other
status outside the finished set (including "downloading") it fails with
`ProgressError` (`InProgress`); in both cases the download is returned
unchanged, so the status is untouched. -/
theorem c5_amended (d : Download) :
    (d.status = "started" → startDL d = (d, some Err.alreadyStarted)) ∧
    (¬ d.status = "started" → is_finished d = false →
      startDL d = (d, some Err.progressError)) := by
  constructor
  · intro h
    simp [startDL, h]
  · intro h1 h2
    simp [startDL, h1, h2]

theorem c5_amended_witness :
    startDL ⟨"started", 3, 0, 0, 0⟩ = (⟨"started", 3, 0, 0, 0⟩, some Err.alreadyStarted) ∧
    startDL ⟨"downloading", 3, 0, 1000, 10⟩ =
      (⟨"downloading", 3, 0, 1000, 10⟩, some Err.progressError) :=
  ⟨(c5_amended ⟨"started", 3, 0, 0, 0⟩).1 rfl,
   (c5_amended ⟨"downloading", 3, 0, 1000, 10⟩).2 (by decide) (by decide)⟩

/-- Claim C3 counterexample: ids are allocated as
`len(self._downloads.keys())`, so they are reused after a removal.  On a
fresh client, `add` allocates id 0; after `rem(0)` removes that transfer,
the next `add` allocates id 0 again — not the next sequential id, and a
reuse of the id of a removed transfer. -/
theorem c3_counterexample :
    (clientAdd freshClient 3).2 = .ok 0 ∧
    (clientRem (clientAdd freshClient 3).1 (.one 0)).2 = none ∧
    (clientAdd (clientRem (clientAdd freshClient 3).1 (.one 0)).1 3).2 = .ok 0 := by
  refine ⟨rfl, rfl, rfl⟩

/-- Claim C3 as amended: `add` allocates the id
`len(self._downloads.keys())`.  As long as no transfer has been removed,
successive `add` calls on a fresh client therefore return the sequential
ids 0, 1, 2, …: after `n` adds the stored keys are exactly
`[0, …, n-1]` (pairwise distinct), the client is still not running, and
the next `add` returns id `n`.  (After a removal the count shrinks, so an
id can be allocated a second time — see the counterexample.) -/
theorem c3_amended (n : Nat) :
    (addManyP freshClient 3 n).downloads.map Prod.fst = List.range n ∧
    (addManyP freshClient 3 n).running = false ∧
    (clientAdd (addManyP freshClient 3 n) 3).2 = .ok n := by
  have key : ∀ m : Nat, (addManyP freshClient 3 m).downloads.map Prod.fst = List.range m ∧
      (addManyP freshClient 3 m).running = false := by
    intro m
    induction m with
    | zero => exact ⟨rfl, rfl⟩
    | succ k ih =>
      obtain ⟨hkeys, hrun⟩ := ih
      have hlen : (addManyP freshClient 3 k).downloads.length = k := by
        have := congrArg List.length hkeys
        simpa using this
      have hnotmem : ∀ p ∈ (addManyP freshClient 3 k).downloads, ¬ p.1 = k := by
        intro p hp
        intro heq
        have hmem : p.1 ∈ List.range k := by
          rw [← hkeys]
          exact List.mem_map_of_mem Prod.fst hp
        rw [List.mem_range, heq] at hmem
        omega
      have happend : dictSet (addManyP freshClient 3 k).downloads k (freshDownload 3) =
          (addManyP freshClient 3 k).downloads ++ [(k, freshDownload 3)] := by
        generalize (addManyP freshClient 3 k).downloads = ds at hnotmem
        clear hkeys hlen
        induction ds with
        | nil => rfl
        | cons p tl ihds =>
          have hp : ¬ p.1 = k := hnotmem p (by simp)
          simp only [dictSet, if_neg hp, List.cons_append]
          rw [ihds (fun q hq => hnotmem q (by simp [hq]))]
      constructor
      · show ((clientAdd (addManyP freshClient 3 k) 3).1).downloads.map Prod.fst = _
        simp only [clientAdd, hrun, Bool.false_eq_true, if_false, hlen, happend]
        simp [hkeys, List.range_succ]
      · show ((clientAdd (addManyP freshClient 3 k) 3).1).running = false
        simp [clientAdd, hrun]
  obtain ⟨hkeys, hrun⟩ := key n
  refine ⟨hkeys, hrun, ?_⟩
  have hlen : (addManyP freshClient 3 n).downloads.length = n := by
    have := congrArg List.length hkeys
    simpa using this
  simp [clientAdd, hrun, hlen]

/-- Claim C9 counterexample: `get_speed` divides by `elapsed_seconds + 1`,
not by `max(elapsed_seconds, 1)`.  With 6 bytes downloaded after 5
elapsed seconds the source returns 6 / 6 = 1, while the claim's formula
gives 6 / max(5,1) = 6/5. -/
theorem c9_counterexample :
    get_speed ⟨"downloading", 3, 0, 1000, 6⟩ 5 ≠ (6 : ℚ) / (max 5 1 : ℕ) := by
  norm_num [get_speed]

/-- Claim C9 as amended: for every download and every elapsed time, the
speed accessor returns `bytes_downloaded / (elapsed_seconds + 1)` (so
`speed * (elapsed_seconds + 1) = bytes_downloaded` exactly); for
`elapsed_seconds ≥ 1` and a nonzero byte count this differs from
`bytes_downloaded / elapsed_seconds`. -/
theorem c9_amended (d : Download) (e : Nat) :
    get_speed d e * ((e : ℚ) + 1) = (d.bytesDownloaded : ℚ) ∧
    (1 ≤ e → d.bytesDownloaded ≠ 0 →
      get_speed d e ≠ (d.bytesDownloaded : ℚ) / (e : ℚ)) := by
  have hne : ((e : ℚ) + 1) ≠ 0 := by positivity
  constructor
  · rw [get_speed, div_mul_cancel₀ _ hne]
  · intro he hb hcontra
    have he0 : ((e : ℚ)) ≠ 0 := by
      simp only [ne_eq, Nat.cast_eq_zero]
      omega
    rw [get_speed, div_eq_div_iff hne he0] at hcontra
    have hb0 : (d.bytesDownloaded : ℚ) = 0 := by nlinarith [hcontra]
    rw [Nat.cast_eq_zero] at hb0
    exact hb hb0

theorem c9_amended_witness :
    get_speed ⟨"downloading", 3, 0, 1000, 6⟩ 5 * ((5 : ℚ) + 1) = (6 : ℚ) ∧
    get_speed ⟨"downloading", 3, 0, 1000, 6⟩ 5 ≠ (6 : ℚ) / (5 : ℚ) := by
  have h := c9_amended ⟨"downloading", 3, 0, 1000, 6⟩ 5
  exact ⟨by simpa using h.1, by simpa using h.2 (by omega) (by decide)⟩

/-- Claim C10: for every download in the finished set (so the
`ProgressError` guard passes), `is_success()` returns `False` — even when
the status is "finished" — because line 549 compares the bound method
object `self.get_status` itself, not the string it would return, against
"finished". -/
theorem c10_is_success_false (d : Download) (h : is_finished d = true) :
    is_success d = .ok false := by
  simp [is_success, h, pyEq]

theorem c10_is_success_false_witness :
    is_finished ⟨"finished", 3, 0, 5, 5⟩ = true ∧
    is_success ⟨"finished", 3, 0, 5, 5⟩ = .ok false :=
  ⟨by decide, c10_is_success_false ⟨"finished", 3, 0, 5, 5⟩ (by decide)⟩

theorem roundHalfEven_close (y : ℚ) : |(roundHalfEven y : ℚ) - y| ≤ 1 / 2 := by
  have h0 : ((Int.floor y : ℤ) : ℚ) ≤ y := Int.floor_le y
  have h1 : y < ((Int.floor y : ℤ) : ℚ) + 1 := Int.lt_floor_add_one y
  unfold roundHalfEven
  split_ifs with hlt hgt hev
  · rw [abs_sub_comm, abs_of_nonneg (by linarith)]
    linarith
  · rw [abs_of_nonneg (by push_cast; linarith)]
    push_cast
    linarith
  · have heq : y - ((Int.floor y : ℤ) : ℚ) = 1 / 2 := by linarith
    rw [abs_sub_comm, abs_of_nonneg (by linarith)]
    linarith
  · have heq : y - ((Int.floor y : ℤ) : ℚ) = 1 / 2 := by linarith
    rw [abs_of_nonneg (by push_cast; linarith)]
    push_cast
    linarith

/-- Claim C8: `get_progress` returns exactly 0 when `bytes_total = 0` (the
`ZeroDivisionError` handler, not an exception); otherwise it returns
`bytes_downloaded / bytes_total * 100` rounded to one decimal place (the
result is an integer number of tenths within 1/20 of the exact ratio); in
particular 333 of 1000 bytes gives 33.3. -/
theorem c8_progress (d : Download) :
    (d.bytesTotal = 0 → get_progress d = 0) ∧
    (d.bytesTotal ≠ 0 →
      (∃ k : ℤ, get_progress d = (k : ℚ) / 10) ∧
      |get_progress d - (d.bytesDownloaded : ℚ) / (d.bytesTotal : ℚ) * 100| ≤ 1 / 20) ∧
    get_progress ⟨"downloading", 3, 0, 1000, 333⟩ = 333 / 10 := by
  refine ⟨fun h => by simp [get_progress, h], fun h => ?_, ?_⟩
  · constructor
    · exact ⟨roundHalfEven ((d.bytesDownloaded : ℚ) / (d.bytesTotal : ℚ) * 100 * 10),
        by simp [get_progress, h]⟩
    · have hclose := roundHalfEven_close ((d.bytesDownloaded : ℚ) / (d.bytesTotal : ℚ) * 100 * 10)
      rw [get_progress, if_neg h]
      have hrw : (roundHalfEven ((d.bytesDownloaded : ℚ) / (d.bytesTotal : ℚ) * 100 * 10) : ℚ) / 10 -
          (d.bytesDownloaded : ℚ) / (d.bytesTotal : ℚ) * 100 =
          ((roundHalfEven ((d.bytesDownloaded : ℚ) / (d.bytesTotal : ℚ) * 100 * 10) : ℚ) -
            (d.bytesDownloaded : ℚ) / (d.bytesTotal : ℚ) * 100 * 10) / 10 := by
        ring
      rw [hrw, abs_div]
      rw [show |(10 : ℚ)| = 10 by norm_num]
      rw [div_le_iff₀ (by norm_num)]
      calc |(roundHalfEven ((d.bytesDownloaded : ℚ) / (d.bytesTotal : ℚ) * 100 * 10) : ℚ) -
            (d.bytesDownloaded : ℚ) / (d.bytesTotal : ℚ) * 100 * 10| ≤ 1 / 2 := hclose
        _ = 1 / 20 * 10 := by norm_num
  · have hx : ((333 : Nat) : ℚ) / ((1000 : Nat) : ℚ) * 100 * 10 = ((333 : ℤ) : ℚ) := by
      norm_num
    rw [get_progress, if_neg (by norm_num)]
    show (roundHalfEven (((333 : Nat) : ℚ) / ((1000 : Nat) : ℚ) * 100 * 10) : ℚ) / 10 = 333 / 10
    rw [hx]
    rw [show roundHalfEven ((333 : ℤ) : ℚ) = 333 from ?_]
    · norm_num
    · unfold roundHalfEven
      rw [Int.floor_intCast]
      norm_num

theorem c8_progress_witness :
    get_progress ⟨"ready", 3, 0, 0, 0⟩ = 0 ∧
    (∃ k : ℤ, get_progress ⟨"downloading", 3, 0, 1000, 333⟩ = (k : ℚ) / 10) :=
  ⟨(c8_progress ⟨"ready", 3, 0, 0, 0⟩).1 rfl,
   ((c8_progress ⟨"downloading", 3, 0, 1000, 333⟩).2.1 (by decide)).1⟩

/-- Claim C2 counterexample: a transient failure after 2 bytes (on-disk
file [10, 11], `_bytes_downloaded = 2`) followed by a reconnect whose
stream re-sends the same 5 bytes in chunks [10], [11, 12], [13, 14].
Under the claim, the reconnect would append exactly the strictly-new bytes
[12, 13, 14], giving the file [10, 11, 12, 13, 14].  Instead, the
re-entry reopens the path with mode "wb" (truncating the partial file),
discards the chunk [10] (cumulative 1 < 2), and then writes the boundary
chunk [11, 12] (cumulative 3 ≥ 2) whole: the byte at stream offset 1
(value 11), already written before the failure, is written a second time,
and the final file is [11, 12, 13, 14] — missing the prefix and not equal
to the pre-failure contents extended by the strictly-new bytes.  The
attempt counter is reset to 0 as claimed. -/
theorem c2_counterexample :
    (request (startedDownload 3) []
        [.stream 5 [[10, 11]] true, .stream 5 [[10], [11, 12], [13, 14]] false]).2.1 =
      [11, 12, 13, 14] ∧
    (request (startedDownload 3) [] [.stream 5 [[10, 11]] true]).2.1 = [10, 11] ∧
    (request (startedDownload 3) [] [.stream 5 [[10, 11]] true]).1.bytesDownloaded = 2 ∧
    (11 : Nat) ∈ [10, 11] ∧ (11 : Nat) ∈ [11, 12, 13, 14] ∧
    (10 : Nat) ∉ [11, 12, 13, 14] ∧
    [11, 12, 13, 14] ≠ [10, 11] ++ [12, 13, 14] ∧
    (request (startedDownload 3) []
        [.stream 5 [[10, 11]] true, .stream 5 [[10], [11, 12], [13, 14]] false]).1.status =
      "finished" ∧
    (request (startedDownload 3) []
        [.stream 5 [[10, 11]] true, .stream 5 [[10], [11, 12], [13, 14]] false]).1.attempts =
      0 := by
  refine ⟨rfl, rfl, rfl, by decide, by decide, by decide, by decide, rfl, rfl⟩

theorem chunkLoop_downloading (chunks : List (List Nat)) :
    ∀ d file cum, d.status = "downloading" →
      (∀ ch ∈ chunks, ch ≠ []) →
      (chunkLoop d file cum chunks).2.1 = file ++ chunks.flatten ∧
      (chunkLoop d file cum chunks).1.status = "downloading" ∧
      (chunkLoop d file cum chunks).1.attempts = d.attempts := by
  induction chunks with
  | nil =>
    intro d file cum h _
    simp [chunkLoop, h]
  | cons ch rest ih =>
    intro d file cum h hne
    have hch : ch ≠ [] := hne ch (by simp)
    have hpos : 0 < cum + ch.length := by
      have := List.length_pos.mpr hch
      omega
    rw [chunkLoop]
    rw [if_neg (by simp [h])]
    simp only
    rw [if_neg (by simp [h]), if_pos hpos]
    have := ih { d with bytesDownloaded := cum + ch.length } (file ++ ch) (cum + ch.length)
      (by simp [h]) (fun c hc => hne c (by simp [hc]))
    refine ⟨?_, this.2.1, this.2.2⟩
    rw [this.1]
    simp

theorem chunkLoop_reconnecting (chunks : List (List Nat)) :
    ∀ d file cum, d.status = "reconnecting" →
      (∀ ch ∈ chunks, ch ≠ []) →
      (chunkLoop d file cum chunks).2.1 =
        file ++ (resumeSuffix d.bytesDownloaded cum chunks).flatten ∧
      (resumeSuffix d.bytesDownloaded cum chunks ≠ [] →
        (chunkLoop d file cum chunks).1.attempts = 0 ∧
        (chunkLoop d file cum chunks).1.status = "downloading") ∧
      (resumeSuffix d.bytesDownloaded cum chunks = [] →
        (chunkLoop d file cum chunks).1 = d) := by
  induction chunks with
  | nil =>
    intro d file cum h _
    simp [chunkLoop, resumeSuffix, h]
  | cons ch rest ih =>
    intro d file cum h hne
    have hch : ch ≠ [] := hne ch (by simp)
    have hpos : 0 < cum + ch.length := by
      have := List.length_pos.mpr hch
      omega
    rw [chunkLoop]
    rw [if_neg (by simp [h])]
    simp only
    rw [if_pos (by simp [h])]
    by_cases hskip : cum + ch.length < d.bytesDownloaded
    · rw [if_pos hskip]
      have := ih d file (cum + ch.length) h (fun c hc => hne c (by simp [hc]))
      rw [resumeSuffix, if_pos hskip]
      exact this
    · rw [if_neg hskip, if_pos hpos]
      have hdl := chunkLoop_downloading rest
        { d with attempts := 0, status := "downloading", bytesDownloaded := cum + ch.length }
        (file ++ ch) (cum + ch.length) rfl (fun c hc => hne c (by simp [hc]))
      rw [resumeSuffix, if_neg hskip]
      refine ⟨?_, fun _ => ⟨?_, hdl.2.1⟩, fun hcontra => by simp at hcontra⟩
      · rw [hdl.1]
        simp
      · rw [hdl.2.2]

/-- Claim C2 as amended: on the reconnect re-entry (status
"reconnecting", with `_bytes_downloaded` holding the pre-failure count)
that streams successfully, the attempt counter is reset to 0 once a
chunk's cumulative byte count reaches the recorded count, and the chunks
whose cumulative count stays below it are discarded; but nothing is
appended to the previously written bytes: reopening the path with mode
"wb" truncates the partial file, so whatever the old contents were, the
final file consists exactly of the surviving chunks — beginning with the
boundary chunk, whose bytes at stream offsets below the recorded count
are written a second time, while the pre-failure prefix up to the end of
the last discarded chunk is lost from the file. -/
theorem c2_amended (d : Download) (file : List Nat) (len : Nat) (chunks : List (List Nat))
    (hst : d.status = "reconnecting") (hne : ∀ ch ∈ chunks, ch ≠ []) :
    (request d file [Session.stream len chunks false]).2.1 =
      (resumeSuffix d.bytesDownloaded 0 chunks).flatten ∧
    (resumeSuffix d.bytesDownloaded 0 chunks ≠ [] →
      (request d file [Session.stream len chunks false]).1.attempts = 0 ∧
      (request d file [Session.stream len chunks false]).1.status = "finished") := by
  rcases d with ⟨st, R, a, bt, bd⟩
  simp only at hst
  subst hst
  have hcl := chunkLoop_reconnecting chunks ⟨"reconnecting", R, a, len, bd⟩ [] 0 rfl hne
  simp only at hcl
  have hnstop : ¬ (chunkLoop ⟨"reconnecting", R, a, len, bd⟩ [] 0 chunks).1.status =
      "stopped" := by
    by_cases hrs : resumeSuffix bd 0 chunks = []
    · rw [hcl.2.2 hrs]
      simp
    · rw [(hcl.2.1 hrs).2]
      simp
  have hreq : request ⟨"reconnecting", R, a, bt, bd⟩ file [Session.stream len chunks false] =
      ({ (chunkLoop ⟨"reconnecting", R, a, len, bd⟩ [] 0 chunks).1 with status := "finished" },
        (chunkLoop ⟨"reconnecting", R, a, len, bd⟩ [] 0 chunks).2.1, true) := by
    simp [request, hnstop]
  rw [hreq]
  refine ⟨by simpa using hcl.1, fun hrs => ⟨?_, rfl⟩⟩
  show (chunkLoop ⟨"reconnecting", R, a, len, bd⟩ [] 0 chunks).1.attempts = 0
  exact (hcl.2.1 hrs).1

theorem c2_amended_witness :
    (request ⟨"reconnecting", 3, 1, 5, 2⟩ [10, 11]
        [Session.stream 5 [[10], [11, 12], [13, 14]] false]).2.1 =
      (resumeSuffix 2 0 [[10], [11, 12], [13, 14]]).flatten ∧
    (request ⟨"reconnecting", 3, 1, 5, 2⟩ [10, 11]
        [Session.stream 5 [[10], [11, 12], [13, 14]] false]).1.attempts = 0 := by
  have h := c2_amended ⟨"reconnecting", 3, 1, 5, 2⟩ [10, 11] 5 [[10], [11, 12], [13, 14]]
    rfl (by decide)
  exact ⟨h.1, (h.2 (by decide)).1⟩

theorem check_is_running_downloads (c : Client) :
    (check_is_running c).downloads = c.downloads := by
  unfold check_is_running
  split <;> rfl

theorem lookupDL_mem (ds : List (Nat × Download)) (j : Nat) (d : Download)
    (h : lookupDL ds j = some d) : (j, d) ∈ ds := by
  unfold lookupDL at h
  cases hf : ds.find? (fun p => p.1 = j) with
  | none => rw [hf] at h; simp at h
  | some p =>
    rw [hf] at h
    have hmem := List.mem_of_find?_eq_some hf
    have hpred := List.find?_some hf
    rcases p with ⟨a, b⟩
    simp at hpred h
    subst hpred
    subst h
    exact hmem

theorem lookupDL_mem_keys (ds : List (Nat × Download)) (j : Nat) (d : Download)
    (h : lookupDL ds j = some d) : j ∈ ds.map Prod.fst :=
  List.mem_map_of_mem Prod.fst (lookupDL_mem ds j d h)

theorem lookupDL_of_mem_keys (ds : List (Nat × Download)) (j : Nat)
    (h : j ∈ ds.map Prod.fst) : ∃ d, lookupDL ds j = some d := by
  rw [List.mem_map] at h
  obtain ⟨p, hp, hpj⟩ := h
  have : (ds.find? (fun p => p.1 = j)).isSome := by
    rw [List.find?_isSome]
    exact ⟨p, hp, by simp [hpj]⟩
  rw [Option.isSome_iff_exists] at this
  obtain ⟨q, hq⟩ := this
  exact ⟨q.2, by rw [lookupDL, hq]; rfl⟩

theorem stopFold_all_unfinished :
    ∀ ks : List Nat, ∀ c : Client, ks.Nodup →
      (∀ j ∈ ks, ∃ d, lookupDL c.downloads j = some d ∧ is_finished d = false) →
      (stopFold c ks).2 = none ∧
      (stopFold c ks).1.running = false ∧
      (stopFold c ks).1.downloads.map Prod.fst = c.downloads.map Prod.fst ∧
      (∀ j, j ∈ ks → ∃ d, lookupDL c.downloads j = some d ∧
        lookupDL (stopFold c ks).1.downloads j = some { d with status := "stopped" }) ∧
      (∀ j, j ∉ ks → lookupDL (stopFold c ks).1.downloads j = lookupDL c.downloads j) := by
  intro ks
  induction ks with
  | nil =>
    intro c _ _
    exact ⟨rfl, rfl, rfl, by simp, fun j _ => rfl⟩
  | cons i rest ih =>
    intro c hnd hks
    obtain ⟨d, hlook, hfin⟩ := hks i (by simp)
    set dstop : Download := { d with status := "stopped" } with hdstop
    have hstop : stopOne d = (dstop, none) := by
      rw [stopOne, if_neg (by simp [hfin]), if_neg (is_finished_false_ne_stopped d hfin)]
    have hinotrest : i ∉ rest := (List.nodup_cons.mp hnd).1
    have hndrest : rest.Nodup := (List.nodup_cons.mp hnd).2
    have hunfold : stopFold c (i :: rest) =
        stopFold (check_is_running { c with downloads := dictSet c.downloads i dstop }) rest := by
      simp only [stopFold, hlook, hstop]
    set c2 := check_is_running { c with downloads := dictSet c.downloads i dstop } with hc2
    have hc2dl : c2.downloads = dictSet c.downloads i dstop := by
      rw [hc2, check_is_running_downloads]
    have hrest : ∀ j ∈ rest, ∃ d0, lookupDL c2.downloads j = some d0 ∧
        is_finished d0 = false := by
      intro j hj
      have hji : j ≠ i := fun h => hinotrest (h ▸ hj)
      obtain ⟨d0, hl0, hf0⟩ := hks j (by simp [hj])
      refine ⟨d0, ?_, hf0⟩
      rw [hc2dl, lookupDL_dictSet_ne _ _ _ _ hji]
      exact hl0
    obtain ⟨herr, hrun, hkeys, hin, hout⟩ := ih c2 hndrest hrest
    rw [hunfold]
    refine ⟨herr, hrun, ?_, ?_, ?_⟩
    · rw [hkeys, hc2dl, keys_dictSet _ _ _ _ hlook]
    · intro j hj
      rcases List.mem_cons.mp hj with hji | hjrest
      · subst hji
        refine ⟨d, hlook, ?_⟩
        rw [hout j hinotrest, hc2dl, lookupDL_dictSet_same]
      · have hji : j ≠ i := fun h => hinotrest (h ▸ hjrest)
        obtain ⟨d0, hl0, hres⟩ := hin j hjrest
        rw [hc2dl, lookupDL_dictSet_ne _ _ _ _ hji] at hl0
        exact ⟨d0, hl0, hres⟩
    · intro j hj
      have hji : j ≠ i := fun h => hj (by simp [h])
      have hjrest : j ∉ rest := fun h => hj (by simp [h])
      rw [hout j hjrest, hc2dl, lookupDL_dictSet_ne _ _ _ _ hji]

/-- Claim C4 counterexample: a running client holding one download whose
status is "finished".  `Client.stop` reaches it, `Download.stop` raises
`FinishedError`, the loop aborts, and `_running` is never cleared: the
result is the unchanged client together with the propagated error, not a
client with every member stopped and the flag cleared. -/
theorem c4_counterexample :
    clientStop { running := true, downloads := [(0, ⟨"finished", 3, 0, 5, 5⟩)] } =
      ({ running := true, downloads := [(0, ⟨"finished", 3, 0, 5, 5⟩)] },
        some Err.finishedError) ∧
    ({ running := true, downloads := [(0, ⟨"finished", 3, 0, 5, 5⟩)] } : Client).running =
      true := by
  exact ⟨rfl, rfl⟩

/-- Claim C4 as amended: `stop()` on a non-running client fails with the
`RegistryNotRunning` `RuntimeError` and changes nothing.  `stop()` on a
running client stops the members in dict order, but does not tolerate
members already in the finished set: when every member is unfinished, all
of them become "stopped" and the flag ends cleared; when the first member
is already finished, `Download.stop` raises `FinishedError`, the loop
aborts, and the client (its flag included) is unchanged. -/
theorem c4_amended (c : Client) :
    (c.running = false → clientStop c = (c, some Err.registryNotRunning)) ∧
    (c.running = true → (c.downloads.map Prod.fst).Nodup →
      (∀ p ∈ c.downloads, is_finished p.2 = false) →
      (clientStop c).2 = none ∧ (clientStop c).1.running = false ∧
      (∀ j d, lookupDL (clientStop c).1.downloads j = some d → d.status = "stopped")) ∧
    (∀ i d rest, c.running = true → c.downloads = (i, d) :: rest → is_finished d = true →
      clientStop c = (c, some Err.finishedError)) := by
  refine ⟨fun h => ?_, fun h hnd hall => ?_, fun i d rest h hdl hfin => ?_⟩
  · rw [clientStop, if_pos (by simp [h])]
  · have hks : ∀ j ∈ c.downloads.map Prod.fst, ∃ d, lookupDL c.downloads j = some d ∧
        is_finished d = false := by
      intro j hj
      obtain ⟨d, hd⟩ := lookupDL_of_mem_keys c.downloads j hj
      exact ⟨d, hd, hall (j, d) (lookupDL_mem c.downloads j d hd)⟩
    obtain ⟨herr, hrun, hkeys, hin, _⟩ :=
      stopFold_all_unfinished (c.downloads.map Prod.fst) c hnd hks
    have hcs : clientStop c = stopFold c (c.downloads.map Prod.fst) := by
      rw [clientStop, if_neg (by simp [h])]
    refine ⟨by rw [hcs]; exact herr, by rw [hcs]; exact hrun, ?_⟩
    intro j d hjd
    rw [hcs] at hjd
    have hjkeys : j ∈ c.downloads.map Prod.fst := by
      rw [← hkeys]
      exact lookupDL_mem_keys _ j d hjd
    obtain ⟨d0, _, hres⟩ := hin j hjkeys
    rw [hjd] at hres
    have : d = { d0 with status := "stopped" } := by injection hres
    rw [this]
  · rw [clientStop, if_neg (by simp [h])]
    rw [hdl]
    show stopFold c (i :: rest.map Prod.fst) = (c, some Err.finishedError)
    have hlook : lookupDL c.downloads i = some d := by
      rw [hdl, lookupDL, List.find?]
      simp
    have hstop : stopOne d = (d, some Err.finishedError) := by
      rw [stopOne, if_pos (by simp [hfin])]
    simp only [stopFold, hlook, hstop]

theorem c4_amended_witness :
    clientStop freshClient = (freshClient, some Err.registryNotRunning) ∧
    (clientStop { running := true, downloads := [(0, ⟨"downloading", 3, 0, 5, 1⟩)] }).2 =
      none := by
  refine ⟨(c4_amended freshClient).1 rfl, ?_⟩
  have h := (c4_amended ⟨true, [(0, ⟨"downloading", 3, 0, 5, 1⟩)]⟩).2.1 rfl
    (by decide) (by decide)
  exact h.1

theorem startFold_all_finished :
    ∀ ks : List Nat, ∀ c : Client, ks.Nodup →
      (∀ j ∈ ks, ∃ d, lookupDL c.downloads j = some d ∧ is_finished d = true) →
      (startFold c ks).2 = none ∧
      (startFold c ks).1.running = true ∧
      (startFold c ks).1.downloads.map Prod.fst = c.downloads.map Prod.fst ∧
      (∀ j, j ∈ ks → ∃ d, lookupDL c.downloads j = some d ∧
        lookupDL (startFold c ks).1.downloads j = some { d with status := "started" }) ∧
      (∀ j, j ∉ ks → lookupDL (startFold c ks).1.downloads j = lookupDL c.downloads j) := by
  intro ks
  induction ks with
  | nil =>
    intro c _ _
    exact ⟨rfl, rfl, rfl, by simp, fun j _ => rfl⟩
  | cons i rest ih =>
    intro c hnd hks
    obtain ⟨d, hlook, hfin⟩ := hks i (by simp)
    set dgo : Download := { d with status := "started" } with hdgo
    have hstart : startDL d = (dgo, none) := by
      rw [startDL, if_neg (is_finished_true_ne_started d hfin), if_neg (by simp [hfin])]
    have hinotrest : i ∉ rest := (List.nodup_cons.mp hnd).1
    have hndrest : rest.Nodup := (List.nodup_cons.mp hnd).2
    have hunfold : startFold c (i :: rest) =
        startFold { c with downloads := dictSet c.downloads i dgo } rest := by
      simp only [startFold, hlook, hstart]
    set c2 : Client := { c with downloads := dictSet c.downloads i dgo } with hc2
    have hc2dl : c2.downloads = dictSet c.downloads i dgo := rfl
    have hrest : ∀ j ∈ rest, ∃ d0, lookupDL c2.downloads j = some d0 ∧
        is_finished d0 = true := by
      intro j hj
      have hji : j ≠ i := fun h => hinotrest (h ▸ hj)
      obtain ⟨d0, hl0, hf0⟩ := hks j (by simp [hj])
      refine ⟨d0, ?_, hf0⟩
      rw [hc2dl, lookupDL_dictSet_ne _ _ _ _ hji]
      exact hl0
    obtain ⟨herr, hrun, hkeys, hin, hout⟩ := ih c2 hndrest hrest
    rw [hunfold]
    refine ⟨herr, hrun, ?_, ?_, ?_⟩
    · rw [hkeys, hc2dl, keys_dictSet _ _ _ _ hlook]
    · intro j hj
      rcases List.mem_cons.mp hj with hji | hjrest
      · subst hji
        refine ⟨d, hlook, ?_⟩
        rw [hout j hinotrest, hc2dl, lookupDL_dictSet_same]
      · have hji : j ≠ i := fun h => hinotrest (h ▸ hjrest)
        obtain ⟨d0, hl0, hres⟩ := hin j hjrest
        rw [hc2dl, lookupDL_dictSet_ne _ _ _ _ hji] at hl0
        exact ⟨d0, hl0, hres⟩
    · intro j hj
      have hji : j ≠ i := fun h => hj (by simp [h])
      have hjrest : j ∉ rest := fun h => hj (by simp [h])
      rw [hout j hjrest, hc2dl, lookupDL_dictSet_ne _ _ _ _ hji]

/-- Claim C6 counterexample: starting an empty, not-running client.
`Client.start`'s loop body never runs, so it sets `_running = True` even
though every contained download (vacuously, all zero of them) is in the
finished set — the aggregate flag is true while no contained transfer is
non-terminal, which the claim says never happens. -/
theorem c6_counterexample :
    clientStart freshClient = ({ running := true, downloads := [] }, none) ∧
    (List.all ([] : List (Nat × Download)) (fun p => is_finished p.2)) = true := by
  exact ⟨rfl, rfl⟩

/-- Claim C6 as amended: `add` and bulk `rem(True)` are rejected with the
`RegistryRunning` `RuntimeError` while the flag is true, so those two
paths never mutate membership while running; a successful `start()` sets
the flag true and puts every stored member into status "started" (for a
nonempty registry this means some member is outside the finished set, but
`start()` on an empty registry also sets the flag with zero members); and
single-id `rem` of a member in the finished set succeeds even while the
flag is true, removing it — so membership can in fact change while
running through that path. -/
theorem c6_amended (c : Client) :
    (c.running = true → ∀ r, clientAdd c r = (c, .error Err.registryRunning)) ∧
    (c.running = true → clientRem c .tru = (c, some Err.registryRunning)) ∧
    (c.running = false → (c.downloads.map Prod.fst).Nodup →
      (∀ p ∈ c.downloads, is_finished p.2 = true) →
      (clientStart c).2 = none ∧ (clientStart c).1.running = true ∧
      (∀ j d, lookupDL (clientStart c).1.downloads j = some d → d.status = "started")) ∧
    (∀ i d, c.running = true → lookupDL c.downloads i = some d → is_finished d = true →
      (clientRem c (.one i)).2 = none ∧
      (clientRem c (.one i)).1.downloads = c.downloads.filter (fun q => ¬ q.1 = i)) := by
  refine ⟨fun h r => ?_, fun h => ?_, fun h hnd hall => ?_, fun i d h hlook hfin => ?_⟩
  · rw [clientAdd, if_pos h]
  · show (if c.running then (c, some Err.registryRunning) else _) = _
    rw [if_pos h]
  · have hks : ∀ j ∈ c.downloads.map Prod.fst, ∃ d, lookupDL c.downloads j = some d ∧
        is_finished d = true := by
      intro j hj
      obtain ⟨d, hd⟩ := lookupDL_of_mem_keys c.downloads j hj
      exact ⟨d, hd, hall (j, d) (lookupDL_mem c.downloads j d hd)⟩
    obtain ⟨herr, hrun, hkeys, hin, _⟩ :=
      startFold_all_finished (c.downloads.map Prod.fst) c hnd hks
    have hcs : clientStart c = startFold c (c.downloads.map Prod.fst) := by
      rw [clientStart, if_neg (by simp [h])]
    refine ⟨by rw [hcs]; exact herr, by rw [hcs]; exact hrun, ?_⟩
    intro j d hjd
    rw [hcs] at hjd
    have hjkeys : j ∈ c.downloads.map Prod.fst := by
      rw [← hkeys]
      exact lookupDL_mem_keys _ j d hjd
    obtain ⟨d0, _, hres⟩ := hin j hjkeys
    rw [hjd] at hres
    have : d = { d0 with status := "started" } := by injection hres
    rw [this]
  · have hrem : clientRem c (.one i) =
        ({ c with downloads := c.downloads.filter (fun q => ¬ q.1 = i) }, none) := by
      simp only [clientRem, hlook, hfin, if_true]
    rw [hrem]
    exact ⟨rfl, rfl⟩

theorem c6_amended_witness :
    (clientStart ⟨false, [(0, freshDownload 3)]⟩).1.running = true ∧
    (clientRem ⟨true, [(0, ⟨"finished", 3, 0, 5, 5⟩), (1, ⟨"downloading", 3, 0, 5, 1⟩)]⟩
      (.one 0)).2 = none := by
  constructor
  · exact ((c6_amended ⟨false, [(0, freshDownload 3)]⟩).2.2.1 rfl (by decide) (by decide)).2.1
  · exact ((c6_amended ⟨true, [(0, ⟨"finished", 3, 0, 5, 5⟩),
      (1, ⟨"downloading", 3, 0, 5, 1⟩)]⟩).2.2.2 0 ⟨"finished", 3, 0, 5, 5⟩ rfl rfl
      (by decide)).1

/-- Claim C7 (the code-side evaluation of the failing input): a download
with `retries = 0` owned by a running client suffers one transient failure;
`_request` sets status "failed" on the retry-exhaustion path *without*
calling `Client.check_is_running` (notification flag false), even though
the download is then `is_finished()` and a call to
`Client.check_is_running` would have cleared the aggregate flag.  By
contrast, the non-transient (bare `except:`) failure path does notify. -/
theorem c7_failed_without_notification :
    (request (startedDownload 0) [] [Session.badHeader]).1.status = "failed" ∧
    (request (startedDownload 0) [] [Session.badHeader]).2.2 = false ∧
    (request (startedDownload 0) [] [Session.fatal]).2.2 = true ∧
    is_finished (request (startedDownload 0) [] [Session.badHeader]).1 = true ∧
    check_is_running
        ⟨true, [(0, (request (startedDownload 0) [] [Session.badHeader]).1)]⟩ =
      ⟨false, [(0, (request (startedDownload 0) [] [Session.badHeader]).1)]⟩ := by
  refine ⟨rfl, rfl, rfl, by decide, by decide⟩

end Aiodown
